import Mathlib

/- Verification of the client-side data-shaping logic of the SapAIWithTraining
   admin/chat dashboard: pagination and filtering of the knowledge collection,
   keyword tag editing, the chat send flow, the safe-fetch API wrapper, the
   chat-message formatter, and the training threshold predicate.

   JavaScript strings are modelled as lists of characters, DOM/Vue state as
   explicit structures, asynchronous handlers as state-transition functions,
   and thrown exceptions as `Except` values. -/

/-- Strings of the JavaScript program, modelled as lists of characters. -/
abbrev Str := List Char

/-- Whitespace as matched by JavaScript `trim` and the regex class `\s`
    (for the character ranges that occur in this program). -/
def isWsC (c : Char) : Bool :=
  c = ' ' || c = '\t' || c = '\n' || c = '\r' || c = '\x0b' || c = '\x0c'

/-- JavaScript `String.prototype.trim`: strip leading and trailing whitespace. -/
def jsTrim (s : Str) : Str :=
  ((s.dropWhile isWsC).reverse.dropWhile isWsC).reverse

/-- JavaScript `String.prototype.toLowerCase` (per-character fold). -/
def lowerStr (s : Str) : Str := s.map Char.toLower

/-- JavaScript `hay.includes(needle)`: substring containment. -/
def includesStr (hay needle : Str) : Bool :=
  hay.tails.any (fun t => needle.isPrefixOf t)

/- ===== Knowledge data model (admin_dashboard.js) ===== -/

/-- A knowledge-base record as consumed by `admin_dashboard.js`. -/
structure KnowledgeItem where
  id : Nat
  module : Str
  question : Str
  answer : Str
  keywords : List Str
  usage_count : Nat
deriving DecidableEq

/- ===== Paginator (renderKnowledgeTable / updateKnowledgePagination) ===== -/

/-- `const itemsPerPage = 10` in admin_dashboard.js. -/
def itemsPerPage : Nat := 10

/-- JavaScript `Array.prototype.slice(start, stop)` for in-range indices. -/
def jsSlice (l : List α) (start stop : Nat) : List α :=
  (l.take stop).drop start

/-- The page slice computed by `renderKnowledgeTable`:
    `filteredKnowledgeData.slice(startIndex, endIndex)` with
    `startIndex = (currentKnowledgePage - 1) * itemsPerPage` and
    `endIndex = startIndex + itemsPerPage`. -/
def renderPageData (filtered : List α) (page : Nat) : List α :=
  jsSlice filtered ((page - 1) * itemsPerPage) ((page - 1) * itemsPerPage + itemsPerPage)

/-- `updateKnowledgePagination`: `Math.ceil(filteredKnowledgeData.length / itemsPerPage)`. -/
def totalPages (filtered : List α) : Nat :=
  (filtered.length + (itemsPerPage - 1)) / itemsPerPage

/-- Spec-side slice: `visible = filtered[(page-1)*pageSize : page*pageSize]`. -/
def specVisible (filtered : List α) (page : Nat) : List α :=
  jsSlice filtered ((page - 1) * itemsPerPage) (page * itemsPerPage)

/-- Spec-side page count: `pageCount = ceil(filteredCount / pageSize)`,
    with the ceiling taken of the exact rational quotient. -/
def specPageCount (n : Nat) : Nat := ⌈(n : ℚ) / (itemsPerPage : ℚ)⌉₊

/- ===== Filter (searchKnowledge) ===== -/

/-- The predicate passed to `knowledgeData.filter` inside `searchKnowledge`.
    `query` is the already-lowercased search box content. -/
def itemPasses (query moduleFilter : Str) (item : KnowledgeItem) : Bool :=
  (query.isEmpty
    || includesStr (lowerStr item.question) query
    || includesStr (lowerStr item.answer) query
    || item.keywords.any (fun kw => includesStr (lowerStr kw) query))
  && (moduleFilter.isEmpty || item.module == moduleFilter)

/-- `searchKnowledge`'s recomputation of `filteredKnowledgeData`: the raw search
    box text is lowercased once, then the collection is filtered. -/
def searchKnowledgeFilter (data : List KnowledgeItem) (searchText moduleFilter : Str) :
    List KnowledgeItem :=
  data.filter (itemPasses (lowerStr searchText) moduleFilter)

/-- Spec-side notion: `needle` is a substring of `hay`. -/
def isSubstringOf (needle hay : Str) : Prop := ∃ pre post, hay = pre ++ needle ++ post

/-- Spec-side notion: `needle` occurs in `hay` case-insensitively
    (consistent simple lowercase folding on both sides). -/
def ciSubstrOf (needle hay : Str) : Prop := isSubstringOf (lowerStr needle) (lowerStr hay)

/-- Spec-side filter predicate: an item passes if (text is empty OR text is a
    case-insensitive substring of question OR of answer OR of any keyword) AND
    (module filter is empty OR equals item's module). -/
def specFilterPass (searchText moduleFilter : Str) (item : KnowledgeItem) : Prop :=
  (searchText = []
    ∨ ciSubstrOf searchText item.question
    ∨ ciSubstrOf searchText item.answer
    ∨ ∃ kw ∈ item.keywords, ciSubstrOf searchText kw)
  ∧ (moduleFilter = [] ∨ item.module = moduleFilter)

/- ===== Dashboard state machine (knowledge tab) ===== -/

/-- The module-level mutable state of admin_dashboard.js that the knowledge
    tab operations read and write, together with the two filter inputs. -/
structure DashState where
  knowledgeData : List KnowledgeItem
  filteredKnowledgeData : List KnowledgeItem
  currentKnowledgePage : Nat
  searchText : Str
  moduleFilter : Str

/-- `searchKnowledge()`: recompute `filteredKnowledgeData` from the current
    inputs and reset `currentKnowledgePage` to 1. -/
def searchKnowledgeFn (s : DashState) : DashState :=
  { s with
    filteredKnowledgeData := searchKnowledgeFilter s.knowledgeData s.searchText s.moduleFilter
    currentKnowledgePage := 1 }

/-- `changeKnowledgePage(page)`: set the page and re-render; nothing else. -/
def changeKnowledgePageFn (s : DashState) (page : Nat) : DashState :=
  { s with currentKnowledgePage := page }

/-- `loadKnowledgeBase()` after a successful fetch: store the fetched
    collection and copy it into `filteredKnowledgeData`. -/
def loadKnowledgeBaseFn (s : DashState) (fetched : List KnowledgeItem) : DashState :=
  { s with knowledgeData := fetched, filteredKnowledgeData := fetched }

/-- User-driven operations on the knowledge tab. Editing either filter input
    triggers `searchKnowledge` (the module select via `filterByModule`). -/
inductive DashOp where
  | setSearch (text : Str)
  | setModuleFilter (m : Str)
  | changePage (p : Nat)
  | load (fetched : List KnowledgeItem)

/-- One step of the knowledge tab. -/
def applyOp (s : DashState) : DashOp → DashState
  | .setSearch t => searchKnowledgeFn { s with searchText := t }
  | .setModuleFilter m => searchKnowledgeFn { s with moduleFilter := m }
  | .changePage p => changeKnowledgePageFn s p
  | .load fetched => loadKnowledgeBaseFn s fetched

/-- Invariant: the filtered collection is a subset of the full collection. -/
def filteredInv (s : DashState) : Prop :=
  s.filteredKnowledgeData ⊆ s.knowledgeData

/- ===== Keyword editor (keywordInput listener / addKeywordToContainer) ===== -/

/-- The Enter-keypress handler on `keywordInput`: trim, and append a tag to the
    keywords container only when the trimmed text is non-empty. -/
def addKeyword (keywords : List Str) (input : Str) : List Str :=
  let keyword := jsTrim input
  if keyword.isEmpty then keywords else keywords ++ [keyword]

/-- Clicking a tag's remove button (`this.parentElement.remove()`): delete the
    tag at that position in the container. -/
def removeKeyword (keywords : List Str) (i : Nat) : List Str :=
  keywords.eraseIdx i

/- ===== Chat send flow (dashboard.js sendMessage) ===== -/

/-- One entry of the `messages` array of the Vue app. -/
structure ChatMsg where
  id : Nat
  type : Str
  sender : Str
  content : Str
deriving DecidableEq

/-- The chat-relevant slice of the Vue app's reactive state. `requestsSent`
    counts the POST /chat requests issued so far. -/
structure ChatState where
  userInput : Str
  loading : Bool
  messages : List ChatMsg
  selectedModule : Str
  autoDetectModule : Bool
  requestsSent : Nat
deriving DecidableEq

/-- The synchronous prefix of `sendMessage()` up to and including issuing the
    fetch: guard `if (!this.userInput.trim() || this.loading) return;`, then
    push the user message, set `loading`, clear the input, send the request. -/
def sendMessageBegin (s : ChatState) (now : Nat) : ChatState :=
  if (jsTrim s.userInput).isEmpty || s.loading then s
  else
    { s with
      messages := s.messages ++
        [{ id := now, type := "user".toList, sender := "You".toList,
           content := jsTrim s.userInput }]
      loading := true
      userInput := []
      requestsSent := s.requestsSent + 1 }

/-- Resumption of `sendMessage()` when the chat request succeeds: push the AI
    message and clear `loading` (the `finally` block). -/
def sendMessageResolveOk (s : ChatState) (now : Nat) (answer : Str) : ChatState :=
  { s with
    messages := s.messages ++
      [{ id := now, type := "ai".toList, sender := "AI Assistant".toList,
         content := answer }]
    loading := false }

/-- Resumption of `sendMessage()` when the chat request fails: push the canned
    system error message and clear `loading` (the `finally` block). -/
def sendMessageResolveErr (s : ChatState) (now : Nat) : ChatState :=
  { s with
    messages := s.messages ++
      [{ id := now, type := "ai".toList, sender := "System".toList,
         content := "Sorry, I encountered an error. Please try again.".toList }]
    loading := false }

/- ===== API client (dashboard.js safeFetch) ===== -/

/-- An HTTP response as observed by `safeFetch`: status code, the
    `content-type` header (absent is `none`), and the raw body. -/
structure HttpResponse where
  status : Nat
  contentType : Option Str
  body : Str

/-- Outcome of the underlying `fetch` call: either the promise rejects
    (network failure, carrying the rejection's message) or a response arrives. -/
inductive FetchOutcome where
  | netFail (msg : Str)
  | success (r : HttpResponse)

/-- The uniform error surfaced by `safeFetch`: every failure is a thrown
    error value carrying a human-readable message. -/
structure ApiError where
  message : Str
deriving DecidableEq

/-- JavaScript `response.ok`: status in 200..299. -/
def response_ok (r : HttpResponse) : Bool :=
  decide (200 ≤ r.status) && decide (r.status ≤ 299)

/-- Message of the error thrown on a non-2xx status. -/
def httpErrorMessage (status : Nat) : Str :=
  "HTTP error! status: ".toList ++ (toString status).toList

/-- `safeFetch(url, options)`: reject non-2xx statuses, then require a JSON
    content type, then parse the body (`response.json()`, modelled by the
    `parse` argument, whose own failure message propagates); the catch block
    logs and rethrows, so the error value reaches the caller unchanged. -/
def safeFetch {J : Type} (parse : Str → Except Str J) : FetchOutcome → Except ApiError J
  | .netFail msg => .error { message := msg }
  | .success r =>
    if !response_ok r then .error { message := httpErrorMessage r.status }
    else
      match r.contentType with
      | none => .error { message := "Response is not JSON".toList }
      | some ct =>
        if !includesStr ct ("application/json".toList) then
          .error { message := "Response is not JSON".toList }
        else
          match parse r.body with
          | .error m => .error { message := m }
          | .ok v => .ok v

/- ===== Training threshold (dashboard.js computed canTrainModel) ===== -/

/- ===== Formatter (dashboard.js formatMessage) =====

   `formatMessage` applies eight global (one non-global) regex replacements in
   a fixed order. Each replacement is embedded as a matcher that, given the
   text starting at the current scan position, either fails or returns the
   replacement text together with the rest of the input after the match; a
   driver replays the JavaScript `replace` scan (try to match at the current
   position; on success emit the replacement and resume after the match, on
   failure emit one character and advance). Replaced text is never rescanned
   within a pass, exactly as in a single `String.prototype.replace` call. -/

/-- U+1F4A1 light bulb. -/
def bulbC : Char := Char.ofNat 0x1F4A1
/-- U+2705 check mark. -/
def checkC : Char := Char.ofNat 0x2705
/-- U+1F4CD round pushpin. -/
def pinC : Char := Char.ofNat 0x1F4CD
/-- U+2022 bullet. -/
def bulletC : Char := Char.ofNat 0x2022
/-- U+1F3AF direct hit. -/
def targetC : Char := Char.ofNat 0x1F3AF
/-- U+1F4B0 money bag. -/
def moneyC : Char := Char.ofNat 0x1F4B0
/-- U+1F465 busts in silhouette. -/
def peopleC : Char := Char.ofNat 0x1F465
/-- U+1F5A5 desktop computer (base character of the keycap emoji). -/
def screenC : Char := Char.ofNat 0x1F5A5
/-- U+FE0F variation selector 16 (second character of the desktop emoji). -/
def vs16C : Char := Char.ofNat 0xFE0F
/-- U+23F0 alarm clock. -/
def alarmC : Char := Char.ofNat 0x23F0

/-- Literal `<strong>`. -/
def strongOpen : Str := "<strong>".toList
/-- Literal `</strong>`. -/
def strongClose : Str := "</strong>".toList
/-- Literal `<br>`. -/
def brTok : Str := "<br>".toList
/-- Literal `**`. -/
def boldTok : Str := "**".toList

/-- Lazy capture `(.*?)` up to a literal `close` token: the shortest span,
    scanning left to right, whose characters are all matched by `.` (which in
    these patterns excludes line terminators); `none` when no such span ends
    at an occurrence of `close`. Returns the captured span and the rest of
    the input after `close`. -/
def findClose (close : Str) : Str → Option (Str × Str)
  | [] => none
  | c :: rest =>
    if close.isPrefixOf (c :: rest) then some ([], (c :: rest).drop close.length)
    else if c = '\n' || c = '\r' then none
    else
      match findClose close rest with
      | some (content, r) => some (c :: content, r)
      | none => none

/-- Rule 1, `/\*\*(.*?)\*\*/g` with replacement `<strong>$1</strong>`. -/
def boldRule (l : Str) : Option (Str × Str) :=
  if boldTok.isPrefixOf l then
    match findClose boldTok (l.drop 2) with
    | some (content, r) => some (strongOpen ++ content ++ strongClose, r)
    | none => none
  else none

/-- The alternation `(🎯|💰|👥|🖥️|💡|⏰)` of rule 3, as character sequences. -/
def emojiAlt : List Str :=
  [[targetC], [moneyC], [peopleC], [screenC, vs16C], [bulbC], [alarmC]]

/-- Match one alternative of an alternation at the current position. -/
def matchAlt : List Str → Str → Option (Str × Str)
  | [], _ => none
  | a :: as, l => if a.isPrefixOf l then some (a, l.drop a.length) else matchAlt as l

/-- Rule 3, `/(🎯|💰|👥|🖥️|💡|⏰)\s*<strong>(.*?)<\/strong>/g` with replacement
    `<div class="section-header">$1 <strong>$2</strong></div>`. -/
def sectionRule (l : Str) : Option (Str × Str) :=
  match matchAlt emojiAlt l with
  | none => none
  | some (emoji, r1) =>
    let r2 := r1.dropWhile isWsC
    if strongOpen.isPrefixOf r2 then
      match findClose strongClose (r2.drop strongOpen.length) with
      | some (content, r3) =>
        some ("<div class=\"section-header\">".toList ++ emoji ++ " ".toList
                ++ strongOpen ++ content ++ strongClose ++ "</div>".toList, r3)
      | none => none
    else none

/-- Lazy capture `(.*?)` bounded by the lookahead `(?=<br>|$)`: the span up to
    the first occurrence of `<br>` (left in the rest) or to the end of input;
    `none` when a line terminator intervenes (`.` cannot cross it and `$` only
    matches at the very end). -/
def splitAtBr : Str → Option (Str × Str)
  | [] => some ([], [])
  | c :: rest =>
    if brTok.isPrefixOf (c :: rest) then some ([], c :: rest)
    else if c = '\n' || c = '\r' then none
    else
      match splitAtBr rest with
      | some (content, r) => some (c :: content, r)
      | none => none

/-- Rule 4, `/(\d+)\.\s*(.*?)(?=<br>|$)/g` with replacement
    `<div class="step-item"><strong>$1.</strong> $2</div>`. -/
def stepRule (l : Str) : Option (Str × Str) :=
  let digits := l.takeWhile Char.isDigit
  if digits.isEmpty then none
  else
    match l.drop digits.length with
    | c :: r2 =>
      if c = '.' then
        let r3 := r2.dropWhile isWsC
        match splitAtBr r3 with
        | some (content, r4) =>
          some ("<div class=\"step-item\">".toList ++ strongOpen ++ digits
                  ++ ".".toList ++ strongClose ++ " ".toList ++ content
                  ++ "</div>".toList, r4)
        | none => none
      else none
    | [] => none

/-- Rule 5, `/•\s*(.*?)(?=<br>|$)/g` with replacement
    `<div class="tip-item">$1</div>`. -/
def bulletRule (l : Str) : Option (Str × Str) :=
  match l with
  | c :: r2 =>
    if c = bulletC then
      let r3 := r2.dropWhile isWsC
      match splitAtBr r3 with
      | some (content, r4) =>
        some ("<div class=\"tip-item\">".toList ++ content ++ "</div>".toList, r4)
      | none => none
    else none
  | [] => none

/-- Split at the first occurrence of `<br><br>` (total: the `s` flag lets `.`
    match anything, so the capture always reaches the end when no double
    break occurs). -/
def splitAtBrBr : Str → Str × Str
  | [] => ([], [])
  | c :: rest =>
    if (brTok ++ brTok).isPrefixOf (c :: rest) then ([], c :: rest)
    else
      let p := splitAtBrBr rest
      (c :: p.1, p.2)

/-- The literal trigger `**💡 Pro Tips:**<br>` of rule 6. -/
def tipsTok : Str := boldTok ++ [bulbC] ++ " Pro Tips:".toList ++ boldTok ++ brTok

/-- Rule 6, `/\*\*💡 Pro Tips:\*\*<br>(.*?)(?=<br><br>|$)/gs` with replacement
    `<div class="tips-section"><strong>💡 Pro Tips:</strong><br>$1</div>`. -/
def tipsRule (l : Str) : Option (Str × Str) :=
  if tipsTok.isPrefixOf l then
    let p := splitAtBrBr (l.drop tipsTok.length)
    some ("<div class=\"tips-section\">".toList ++ strongOpen ++ [bulbC]
            ++ " Pro Tips:".toList ++ strongClose ++ brTok ++ p.1
            ++ "</div>".toList, p.2)
  else none

/-- The literal trigger `**✅ Important:**<br>` of rule 7. -/
def impTok : Str := boldTok ++ [checkC] ++ " Important:".toList ++ boldTok ++ brTok

/-- Rule 7, `/\*\*✅ Important:\*\*<br>(.*?)(?=<br><br>|$)/gs` with replacement
    `<div class="important-section"><strong>✅ Important:</strong><br>$1</div>`. -/
def importantRule (l : Str) : Option (Str × Str) :=
  if impTok.isPrefixOf l then
    let p := splitAtBrBr (l.drop impTok.length)
    some ("<div class=\"important-section\">".toList ++ strongOpen ++ [checkC]
            ++ " Important:".toList ++ strongClose ++ brTok ++ p.1
            ++ "</div>".toList, p.2)
  else none

/-- Rule 8, `/📍(.*?)$/` (no `g` flag) with replacement
    `<div class="footer-note">📍 $1</div>`: the capture must reach the end of
    the string, so a line terminator after the pin makes the match fail. -/
def footerRule (l : Str) : Option (Str × Str) :=
  match l with
  | c :: rest =>
    if c = pinC then
      if rest.any (fun d => d = '\n' || d = '\r') then none
      else
        some ("<div class=\"footer-note\">".toList ++ [pinC] ++ " ".toList
                ++ rest ++ "</div>".toList, [])
    else none
  | [] => none

/-- Driver for a global `replace`: at each position, emit the rule's
    replacement and resume after the match, or emit one character and advance.
    Fuel bounds the recursion; every rule of this file consumes at least one
    input character per match, so fuel equal to the input length replays the
    JavaScript scan exactly. -/
def runRule (rule : Str → Option (Str × Str)) : Nat → Str → Str
  | 0, l => l
  | _ + 1, [] => []
  | fuel + 1, c :: rest =>
    match rule (c :: rest) with
    | some (rep, r) => rep ++ runRule rule fuel r
    | none => c :: runRule rule fuel rest

/-- Driver for a non-global `replace`: only the first match is replaced. -/
def runRuleOnce (rule : Str → Option (Str × Str)) : Str → Str
  | [] => []
  | c :: rest =>
    match rule (c :: rest) with
    | some (rep, r) => rep ++ r
    | none => c :: runRuleOnce rule rest

/-- A global `replace` over a whole string. -/
def gReplace (rule : Str → Option (Str × Str)) (l : Str) : Str :=
  runRule rule l.length l

/-- Rule 2, `/\n/g` with replacement `<br>`. -/
def brPass (s : Str) : Str :=
  s.flatMap (fun c => if c = '\n' then brTok else [c])

/-- `formatMessage(content)`: the guard `if (!content) return ''` followed by
    the eight chained replacements in source order. -/
def formatMessage : Option Str → Str
  | none => []
  | some content =>
    if content.isEmpty then []
    else
      runRuleOnce footerRule
        (gReplace importantRule
          (gReplace tipsRule
            (gReplace bulletRule
              (gReplace stepRule
                (gReplace sectionRule
                  (brPass
                    (gReplace boldRule content)))))))

/-- A character of ordinary prose: not a trigger character of any formatter
    rule (asterisk, line terminators, bullet, pushpin, or a header emoji). -/
def proseChar (c : Char) : Bool :=
  !(c = '*' || c = '\n' || c = '\r' || c = bulletC || c = pinC
    || c = targetC || c = moneyC || c = peopleC || c = screenC
    || c = bulbC || c = alarmC)

/-- The step-item block produced by rule 4 for integer run `d` and captured
    remainder `t`. -/
def stepRep (d t : Str) : Str :=
  "<div class=\"step-item\">".toList ++ strongOpen ++ d ++ ".".toList
    ++ strongClose ++ " ".toList ++ t ++ "</div>".toList

/-- The `stats` object of the Vue app. -/
structure StatsState where
  knowledgeCount : Nat
  trainingCount : Nat
  conversationCount : Nat
  aiStatus : Bool

/-- Computed property `canTrainModel`:
    `this.stats.knowledgeCount + this.stats.trainingCount >= 5`. -/
def canTrainModel (s : StatsState) : Bool :=
  decide (5 ≤ s.knowledgeCount + s.trainingCount)

/- ===== Helper lemmas ===== -/

/-- Substring containment agrees with the existence of a decomposition. -/
theorem includesStr_iff (hay needle : Str) :
    includesStr hay needle = true ↔ ∃ pre post, hay = pre ++ needle ++ post := by
  unfold includesStr
  rw [List.any_eq_true]
  constructor
  · rintro ⟨t, ht, hp⟩
    rw [List.mem_tails] at ht
    rw [List.isPrefixOf_iff_prefix] at hp
    obtain ⟨post, rfl⟩ := hp
    obtain ⟨pre, rfl⟩ := ht
    exact ⟨pre, post, by simp⟩
  · rintro ⟨pre, post, rfl⟩
    refine ⟨needle ++ post, ?_, ?_⟩
    · rw [List.mem_tails]
      exact ⟨pre, by simp⟩
    · rw [List.isPrefixOf_iff_prefix]
      exact ⟨post, rfl⟩

/-- Unfolding substring search one character at a time. -/
theorem includesStr_cons (c : Char) (rest needle : Str) :
    includesStr (c :: rest) needle
      = (needle.isPrefixOf (c :: rest) || includesStr rest needle) := by
  simp [includesStr, List.tails_cons]

/-- The filter predicate of `searchKnowledge` agrees pointwise with the
    spec-side predicate. -/
theorem itemPasses_iff (text mfilter : Str) (item : KnowledgeItem) :
    itemPasses (lowerStr text) mfilter item = true ↔ specFilterPass text mfilter item := by
  unfold itemPasses specFilterPass ciSubstrOf isSubstringOf lowerStr
  simp only [← includesStr_iff]
  simp only [Bool.and_eq_true, Bool.or_eq_true, List.isEmpty_iff, List.any_eq_true,
    beq_iff_eq, List.map_eq_nil_iff]
  tauto

/-- The integer-ceiling formula used by `updateKnowledgePagination` computes
    the ceiling of the exact rational quotient. -/
theorem add_pred_div_eq_ceil (n : Nat) : (n + 9) / 10 = ⌈(n : ℚ) / (10 : ℚ)⌉₊ := by
  have h10 : (0 : ℚ) < 10 := by norm_num
  apply le_antisymm
  · rcases Nat.eq_zero_or_pos ((n + 9) / 10) with h0 | h0
    · omega
    · have hlt : (n + 9) / 10 - 1 < ⌈(n : ℚ) / 10⌉₊ := by
        rw [Nat.lt_ceil, lt_div_iff₀ h10]
        have hx : ((n + 9) / 10 - 1) * 10 < n := by omega
        exact_mod_cast hx
      omega
  · rw [Nat.ceil_le, div_le_iff₀ h10]
    have hx : n ≤ ((n + 9) / 10) * 10 := by omega
    exact_mod_cast hx

/-- `runRule` on the empty string. -/
theorem runRule_nil (rule : Str → Option (Str × Str)) (fuel : Nat) :
    runRule rule fuel [] = [] := by
  cases fuel <;> rfl

/-- A pass is the identity when its rule matches at no position. -/
theorem runRule_id (rule : Str → Option (Str × Str)) (fuel : Nat) :
    ∀ l : Str, (∀ t : Str, t <:+ l → t ≠ [] → rule t = none) → runRule rule fuel l = l := by
  induction fuel with
  | zero => intro l _; rfl
  | succ f ih =>
    intro l h
    cases l with
    | nil => rfl
    | cons c rest =>
      have h0 : rule (c :: rest) = none := h _ (List.suffix_refl _) (by simp)
      have h1 : runRule rule (f + 1) (c :: rest) = c :: runRule rule f rest := by
        simp [runRule, h0]
      rw [h1, ih rest (fun t ht hne => h t (ht.trans (List.suffix_cons c rest)) hne)]

/-- A first-match-only pass is the identity when its rule never matches. -/
theorem runRuleOnce_id (rule : Str → Option (Str × Str)) :
    ∀ l : Str, (∀ t : Str, t <:+ l → t ≠ [] → rule t = none) → runRuleOnce rule l = l := by
  intro l
  induction l with
  | nil => intro _; rfl
  | cons c rest ih =>
    intro h
    have h0 : rule (c :: rest) = none := h _ (List.suffix_refl _) (by simp)
    have h1 : runRuleOnce rule (c :: rest) = c :: runRuleOnce rule rest := by
      simp [runRuleOnce, h0]
    rw [h1, ih (fun t ht hne => h t (ht.trans (List.suffix_cons c rest)) hne)]

/-- Newline replacement is the identity on newline-free text. -/
theorem brPass_id (l : Str) (h : ∀ c ∈ l, c ≠ '\n') : brPass l = l := by
  induction l with
  | nil => rfl
  | cons c rest ih =>
    have hc : c ≠ '\n' := h c (by simp)
    simp only [brPass, List.flatMap_cons, if_neg hc]
    simpa [brPass] using ih (fun d hd => h d (by simp [hd]))

/-- Unpacking the prose-character guard. -/
theorem proseChar_spec (c : Char) (h : proseChar c = true) :
    c ≠ '*' ∧ c ≠ '\n' ∧ c ≠ '\r' ∧ c ≠ bulletC ∧ c ≠ pinC ∧ c ≠ targetC
      ∧ c ≠ moneyC ∧ c ≠ peopleC ∧ c ≠ screenC ∧ c ≠ bulbC ∧ c ≠ alarmC := by
  simp only [proseChar, Bool.not_eq_true', Bool.or_eq_false_iff, decide_eq_false_iff_not] at h
  tauto

/-- Digits are prose characters (no rule trigger is a digit). -/
theorem digit_prose (c : Char) (h : c.isDigit = true) : proseChar c = true := by
  simp only [proseChar, Bool.not_eq_true', Bool.or_eq_false_iff, decide_eq_false_iff_not]
  refine ⟨⟨⟨⟨⟨⟨⟨⟨⟨⟨?_, ?_⟩, ?_⟩, ?_⟩, ?_⟩, ?_⟩, ?_⟩, ?_⟩, ?_⟩, ?_⟩, ?_⟩ <;>
    rintro rfl <;> exact absurd h (by decide)

/-- Rule 1 cannot fire without a leading asterisk. -/
theorem boldRule_none (c : Char) (rest : Str) (h : c ≠ '*') :
    boldRule (c :: rest) = none := by
  have hp : boldTok.isPrefixOf (c :: rest) = false := by
    simp [boldTok, List.isPrefixOf]
    intro he
    exact absurd he.symm h
  simp [boldRule, hp]

/-- Rule 1 cannot fire on the empty string. -/
theorem boldRule_nil : boldRule [] = none := rfl

/-- The emoji alternation cannot fire without a leading header emoji. -/
theorem matchAlt_emoji_none (c : Char) (rest : Str)
    (h1 : c ≠ targetC) (h2 : c ≠ moneyC) (h3 : c ≠ peopleC) (h4 : c ≠ screenC)
    (h5 : c ≠ bulbC) (h6 : c ≠ alarmC) :
    matchAlt emojiAlt (c :: rest) = none := by
  have e1 : (targetC == c) = false := by simp [Ne.symm h1]
  have e2 : (moneyC == c) = false := by simp [Ne.symm h2]
  have e3 : (peopleC == c) = false := by simp [Ne.symm h3]
  have e4 : (screenC == c) = false := by simp [Ne.symm h4]
  have e5 : (bulbC == c) = false := by simp [Ne.symm h5]
  have e6 : (alarmC == c) = false := by simp [Ne.symm h6]
  simp [matchAlt, emojiAlt, List.isPrefixOf, e1, e2, e3, e4, e5, e6]

/-- Rule 3 cannot fire without a leading header emoji. -/
theorem sectionRule_none (c : Char) (rest : Str)
    (h1 : c ≠ targetC) (h2 : c ≠ moneyC) (h3 : c ≠ peopleC) (h4 : c ≠ screenC)
    (h5 : c ≠ bulbC) (h6 : c ≠ alarmC) :
    sectionRule (c :: rest) = none := by
  simp [sectionRule, matchAlt_emoji_none c rest h1 h2 h3 h4 h5 h6]

/-- Rule 3 cannot fire on the empty string. -/
theorem sectionRule_nil : sectionRule [] = none := rfl

/-- Rule 4 cannot fire without a leading digit. -/
theorem stepRule_none (c : Char) (rest : Str) (h : c.isDigit = false) :
    stepRule (c :: rest) = none := by
  simp [stepRule, List.takeWhile_cons, h]

/-- Rule 4 cannot fire on the empty string. -/
theorem stepRule_nil : stepRule [] = none := rfl

/-- Rule 5 cannot fire without a leading bullet. -/
theorem bulletRule_none (c : Char) (rest : Str) (h : c ≠ bulletC) :
    bulletRule (c :: rest) = none := by
  simp [bulletRule, h]

/-- Rule 6 cannot fire without a leading asterisk. -/
theorem tipsRule_none (c : Char) (rest : Str) (h : c ≠ '*') :
    tipsRule (c :: rest) = none := by
  have hp : tipsTok.isPrefixOf (c :: rest) = false := by
    simp [tipsTok, boldTok, List.isPrefixOf]
    intro he
    exact absurd he.symm h
  simp [tipsRule, hp]

/-- Rule 7 cannot fire without a leading asterisk. -/
theorem importantRule_none (c : Char) (rest : Str) (h : c ≠ '*') :
    importantRule (c :: rest) = none := by
  have hp : impTok.isPrefixOf (c :: rest) = false := by
    simp [impTok, boldTok, List.isPrefixOf]
    intro he
    exact absurd he.symm h
  simp [importantRule, hp]

/-- Rule 8 cannot fire without a leading pushpin. -/
theorem footerRule_none (c : Char) (rest : Str) (h : c ≠ pinC) :
    footerRule (c :: rest) = none := by
  simp [footerRule, h]

/-- The lazy capture of rule 4 consumes clean text to the end of input. -/
theorem splitAtBr_clean (t : Str) (hbr : includesStr t brTok = false)
    (hnl : ∀ c ∈ t, c ≠ '\n' ∧ c ≠ '\r') : splitAtBr t = some (t, []) := by
  induction t with
  | nil => rfl
  | cons c rest ih =>
    rw [includesStr_cons] at hbr
    simp only [Bool.or_eq_false_iff] at hbr
    obtain ⟨hn, hr⟩ := hnl c (by simp)
    simp [splitAtBr, hbr.1, hn, hr, ih hbr.2 (fun d hd => hnl d (by simp [hd]))]

/-- A run of digit characters followed by a non-digit is taken whole. -/
theorem takeWhile_digits (d : Str) (x : Char) (t : Str)
    (hd : ∀ c ∈ d, c.isDigit = true) (hx : x.isDigit = false) :
    (d ++ x :: t).takeWhile Char.isDigit = d := by
  induction d with
  | nil => simp [List.takeWhile_cons, hx]
  | cons a rest ih =>
    have ha : a.isDigit = true := hd a (by simp)
    simp [List.takeWhile_cons, ha, ih (fun c hc => hd c (by simp [hc]))]

/-- Dropping a predicate-satisfying prefix continues into the tail. -/
theorem dropWhile_all_append (p : Char → Bool) (ws t : Str)
    (h : ∀ c ∈ ws, p c = true) : (ws ++ t).dropWhile p = t.dropWhile p := by
  induction ws with
  | nil => rfl
  | cons a rest ih =>
    have ha : p a = true := h a (by simp)
    simp [List.dropWhile_cons, ha, ih (fun c hc => h c (by simp [hc]))]

/-- Rule 4 at a match position: maximal digit run, dot, whitespace skipped,
    then the whole clean remainder is captured and the rest of the input is
    empty. -/
theorem stepRule_match (d ws t : Str) (hd : d ≠ []) (hdig : ∀ c ∈ d, c.isDigit = true)
    (hwsAll : ∀ c ∈ ws, isWsC c = true)
    (hbr : includesStr t brTok = false)
    (hnl : ∀ c ∈ t, c ≠ '\n' ∧ c ≠ '\r')
    (hws : t.dropWhile isWsC = t) :
    stepRule (d ++ '.' :: (ws ++ t)) = some (stepRep d t, []) := by
  have h1 : (d ++ '.' :: (ws ++ t)).takeWhile Char.isDigit = d :=
    takeWhile_digits d '.' (ws ++ t) hdig (by decide)
  have h2 : (d ++ '.' :: (ws ++ t)).drop d.length = '.' :: (ws ++ t) :=
    List.drop_left d ('.' :: (ws ++ t))
  have h3 : d.isEmpty = false := by
    cases d with
    | nil => exact absurd rfl hd
    | cons a rest => rfl
  have h4 : (ws ++ t).dropWhile isWsC = t := by
    rw [dropWhile_all_append isWsC ws t hwsAll, hws]
  unfold stepRule
  simp only [h1, h3, Bool.false_eq_true, if_false, h2, h4, splitAtBr_clean t hbr hnl,
    if_pos rfl, stepRep, if_true]

/-- The step pass on a prose prefix followed by a digit run, a dot, optional
    whitespace, and clean text: the prefix is copied verbatim and the match is
    replaced once. -/
theorem runRule_step_walk (d ws t : Str)
    (hd : d ≠ []) (hdig : ∀ c ∈ d, c.isDigit = true)
    (hwsAll : ∀ c ∈ ws, isWsC c = true)
    (hbr : includesStr t brTok = false)
    (hnl : ∀ c ∈ t, c ≠ '\n' ∧ c ≠ '\r')
    (hws : t.dropWhile isWsC = t) :
    ∀ (pre : Str) (fuel : Nat), (pre ++ d ++ '.' :: (ws ++ t)).length ≤ fuel →
      (∀ c ∈ pre, c.isDigit = false) →
      runRule stepRule fuel (pre ++ d ++ '.' :: (ws ++ t)) = pre ++ stepRep d t := by
  intro pre
  induction pre with
  | nil =>
    intro fuel hfuel _
    obtain ⟨dc, dt, rfl⟩ : ∃ dc dt, d = dc :: dt := by
      cases d with
      | nil => exact absurd rfl hd
      | cons a b => exact ⟨a, b, rfl⟩
    cases fuel with
    | zero => simp at hfuel
    | succ f =>
      have hm := stepRule_match (dc :: dt) ws t hd hdig hwsAll hbr hnl hws
      simp only [List.nil_append, List.cons_append] at hm ⊢
      simp [runRule, hm, runRule_nil]
  | cons p ps ih =>
    intro fuel hfuel hpre
    cases fuel with
    | zero => simp at hfuel
    | succ f =>
      have hstep : stepRule (p :: (ps ++ d ++ '.' :: (ws ++ t))) = none :=
        stepRule_none p _ (hpre p (by simp))
      have harr : (p :: ps) ++ d ++ '.' :: (ws ++ t)
          = p :: (ps ++ d ++ '.' :: (ws ++ t)) := by
        simp only [List.cons_append]
      rw [harr]
      have hrun : runRule stepRule (f + 1) (p :: (ps ++ d ++ '.' :: (ws ++ t)))
          = p :: runRule stepRule f (ps ++ d ++ '.' :: (ws ++ t)) := by
        simp only [runRule, hstep]
      have hf2 : (ps ++ d ++ '.' :: (ws ++ t)).length ≤ f := by
        rw [harr] at hfuel
        simp only [List.length_cons] at hfuel
        omega
      rw [hrun, ih f hf2 (fun c hc => hpre c (by simp [hc]))]
      simp only [List.cons_append]

/-- A global pass is the identity when its rule fires at no head character. -/
theorem gReplace_id_of (rule : Str → Option (Str × Str)) (l : Str)
    (h : ∀ c (rest : Str), c ∈ l → rule (c :: rest) = none) :
    gReplace rule l = l := by
  apply runRule_id
  intro t ht hne
  cases t with
  | nil => exact absurd rfl hne
  | cons c rest => exact h c rest (ht.subset (by simp))

/-- A first-match pass is the identity when its rule fires at no head character. -/
theorem onceReplace_id_of (rule : Str → Option (Str × Str)) (l : Str)
    (h : ∀ c (rest : Str), c ∈ l → rule (c :: rest) = none) :
    runRuleOnce rule l = l := by
  apply runRuleOnce_id
  intro t ht hne
  cases t with
  | nil => exact absurd rfl hne
  | cons c rest => exact h c rest (ht.subset (by simp))

/-- Characters of a step-item block are prose characters whenever the captured
    pieces consist of digits and prose characters. -/
theorem stepRep_prose (d t : Str) (hdig : ∀ c ∈ d, c.isDigit = true)
    (ht : ∀ c ∈ t, proseChar c = true) :
    ∀ c ∈ stepRep d t, proseChar c = true := by
  have lit1 : ∀ c ∈ "<div class=\"step-item\">".toList, proseChar c = true := by decide
  have lit2 : ∀ c ∈ "<strong>".toList, proseChar c = true := by decide
  have lit3 : ∀ c ∈ ".".toList, proseChar c = true := by decide
  have lit4 : ∀ c ∈ "</strong>".toList, proseChar c = true := by decide
  have lit5 : ∀ c ∈ " ".toList, proseChar c = true := by decide
  have lit6 : ∀ c ∈ "</div>".toList, proseChar c = true := by decide
  intro c hc
  simp only [stepRep, strongOpen, strongClose, List.mem_append, or_assoc] at hc
  rcases hc with h | h | h | h | h | h | h | h
  · exact lit1 c h
  · exact lit2 c h
  · exact digit_prose c (hdig c h)
  · exact lit3 c h
  · exact lit4 c h
  · exact lit5 c h
  · exact ht c h
  · exact lit6 c h

/-- Splitting membership in the step-rule input shape. -/
theorem mem_concat3 {c : Char} {pre d ws t : Str}
    (h : c ∈ pre ++ d ++ '.' :: (ws ++ t)) :
    c ∈ pre ∨ c ∈ d ∨ c = '.' ∨ c ∈ ws ∨ c ∈ t := by
  simp only [List.mem_append, List.mem_cons] at h
  tauto

/-- Every knowledge-tab operation preserves the filtered-subset invariant. -/
theorem applyOp_inv (s : DashState) (op : DashOp) (h : filteredInv s) :
    filteredInv (applyOp s op) := by
  cases op with
  | setSearch t =>
    intro x hx
    exact (List.mem_filter.mp hx).1
  | setModuleFilter m =>
    intro x hx
    exact (List.mem_filter.mp hx).1
  | changePage p => exact h
  | load fetched =>
    intro x hx
    exact hx

/-- Any sequence of knowledge-tab operations preserves the invariant. -/
theorem foldl_inv : ∀ (ops : List DashOp) (s : DashState), filteredInv s →
    filteredInv (ops.foldl applyOp s)
  | [], _, h => h
  | op :: ops, s, h => foldl_inv ops (applyOp s op) (applyOp_inv s op h)

/- ===== Claims ===== -/

/-- C1: for every filtered collection and pageSize 10, the paginator computes
    `pageCount = ceil(N / 10)` (zero when the collection is empty), the visible
    slice equals `filtered[(page-1)*10 : page*10]` with no wraparound (pages
    past the last are empty), and for a 25-item collection page 1 shows the
    first 10 items, page 3 the last 5, with pageCount 3. -/
theorem c1_pagination (α : Type) (fl : List α) (page : Nat) (hp : 1 ≤ page) :
    totalPages fl = specPageCount fl.length
    ∧ (fl = [] → totalPages fl = 0)
    ∧ renderPageData fl page = specVisible fl page
    ∧ (totalPages fl < page → renderPageData fl page = [])
    ∧ (fl.length = 25 →
        renderPageData fl 1 = fl.take 10
        ∧ renderPageData fl 3 = fl.drop 20
        ∧ totalPages fl = 3) := by
  refine ⟨?_, ?_, ?_, ?_, ?_⟩
  · have h := add_pred_div_eq_ceil fl.length
    simpa [totalPages, specPageCount, itemsPerPage] using h
  · intro h
    subst h
    simp [totalPages, itemsPerPage]
  · have harith : (page - 1) * itemsPerPage + itemsPerPage = page * itemsPerPage := by
      simp only [itemsPerPage]
      omega
    unfold renderPageData specVisible
    rw [harith]
  · intro h
    have hlen : fl.length ≤ (page - 1) * itemsPerPage := by
      unfold totalPages itemsPerPage at h
      simp only [itemsPerPage]
      omega
    unfold renderPageData jsSlice
    rw [List.drop_eq_nil_iff, List.length_take]
    exact le_trans (min_le_right _ _) hlen
  · intro h25
    refine ⟨?_, ?_, ?_⟩
    · simp [renderPageData, jsSlice, itemsPerPage]
    · unfold renderPageData jsSlice itemsPerPage
      norm_num
      rw [List.take_of_length_le (by omega)]
    · simp [totalPages, itemsPerPage, h25]

/-- C1 witness: the 25-item scenario at the concrete collection `range 25`. -/
theorem c1_pagination_witness :
    renderPageData (List.range 25) 1 = (List.range 25).take 10
    ∧ renderPageData (List.range 25) 3 = (List.range 25).drop 20
    ∧ totalPages (List.range 25) = 3
    ∧ renderPageData (List.range 25) 3 = specVisible (List.range 25) 3 := by
  have h := c1_pagination Nat (List.range 25) 3 (by norm_num)
  have h25 : (List.range 25).length = 25 := by simp
  exact ⟨(h.2.2.2.2 h25).1, (h.2.2.2.2 h25).2.1, (h.2.2.2.2 h25).2.2, h.2.2.1⟩

/-- C2: an item is in the filtered collection iff (the search text is empty OR
    is a case-insensitive substring of the question, the answer, or some
    keyword) AND (the module filter is empty OR equals the item's module);
    consequently, when exactly one item matches (via a keyword) and every other
    item fails the predicate, the filter returns exactly that item. -/
theorem c2_filter_predicate (data : List KnowledgeItem) (text mfilter : Str)
    (item : KnowledgeItem) (pre post : List KnowledgeItem) :
    (item ∈ searchKnowledgeFilter data text mfilter
      ↔ item ∈ data ∧ specFilterPass text mfilter item)
    ∧ (data = pre ++ item :: post →
       (∃ kw ∈ item.keywords, ciSubstrOf text kw) →
       (∀ j, (j ∈ pre ∨ j ∈ post) → ¬ specFilterPass text [] j) →
       searchKnowledgeFilter data text [] = [item]) := by
  constructor
  · unfold searchKnowledgeFilter
    rw [List.mem_filter, itemPasses_iff]
  · rintro rfl hkw hno
    unfold searchKnowledgeFilter
    rw [List.filter_append, List.filter_cons]
    have hpre2 : pre.filter (itemPasses (lowerStr text) []) = [] := by
      rw [List.filter_eq_nil_iff]
      intro a ha
      rw [itemPasses_iff]
      exact hno a (Or.inl ha)
    have hpost2 : post.filter (itemPasses (lowerStr text) []) = [] := by
      rw [List.filter_eq_nil_iff]
      intro a ha
      rw [itemPasses_iff]
      exact hno a (Or.inr ha)
    have hitem : itemPasses (lowerStr text) [] item = true := by
      rw [itemPasses_iff]
      exact ⟨Or.inr (Or.inr (Or.inr hkw)), Or.inl rfl⟩
    simp [hpre2, hpost2, hitem]

/-- C2 witness: the query `ROLL` matches exactly the item whose keyword is
    `Payroll`, case-insensitively, and the filter returns exactly that item. -/
theorem c2_filter_predicate_witness :
    searchKnowledgeFilter
        [⟨2, "hr".toList, "Vacation days".toList, "Ten per year".toList,
            ["leave".toList], 0⟩,
         ⟨1, "payroll".toList, "Pay cycle".toList, "Monthly".toList,
            ["Payroll".toList], 0⟩]
        ("ROLL".toList) []
      = [⟨1, "payroll".toList, "Pay cycle".toList, "Monthly".toList,
            ["Payroll".toList], 0⟩] := by
  have h := (c2_filter_predicate
      [⟨2, "hr".toList, "Vacation days".toList, "Ten per year".toList,
          ["leave".toList], 0⟩,
       ⟨1, "payroll".toList, "Pay cycle".toList, "Monthly".toList,
          ["Payroll".toList], 0⟩]
      ("ROLL".toList) []
      ⟨1, "payroll".toList, "Pay cycle".toList, "Monthly".toList,
          ["Payroll".toList], 0⟩
      [⟨2, "hr".toList, "Vacation days".toList, "Ten per year".toList,
          ["leave".toList], 0⟩]
      []).2
  apply h rfl
  · exact ⟨"Payroll".toList, by decide, ⟨"pay".toList, [], by decide⟩⟩
  · intro j hj
    have hj2 : j = ⟨2, "hr".toList, "Vacation days".toList, "Ten per year".toList,
        ["leave".toList], 0⟩ := by
      rcases hj with hj | hj
      · simpa using hj
      · simp at hj
    subst hj2
    rw [← itemPasses_iff]
    decide

/-- C3: running the search (triggered by either filter input changing) resets
    the current page to 1; changing the page alone leaves the filter inputs,
    the filtered collection, and the full collection untouched; and the
    filtered-subset invariant holds after any sequence of operations. -/
theorem c3_filter_page_invariants (s : DashState) (t m : Str) (p : Nat)
    (ops : List DashOp) (hinv : filteredInv s) :
    (applyOp s (.setSearch t)).currentKnowledgePage = 1
    ∧ (applyOp s (.setModuleFilter m)).currentKnowledgePage = 1
    ∧ (applyOp s (.changePage p)).filteredKnowledgeData = s.filteredKnowledgeData
    ∧ (applyOp s (.changePage p)).knowledgeData = s.knowledgeData
    ∧ (applyOp s (.changePage p)).searchText = s.searchText
    ∧ (applyOp s (.changePage p)).moduleFilter = s.moduleFilter
    ∧ filteredInv (ops.foldl applyOp s) :=
  ⟨rfl, rfl, rfl, rfl, rfl, rfl, foldl_inv ops s hinv⟩

/-- C3 witness: the invariants at a concrete loaded state and operation list. -/
theorem c3_filter_page_invariants_witness :
    (applyOp ⟨[], [], 1, [], []⟩ (.setSearch ("pay".toList))).currentKnowledgePage = 1
    ∧ filteredInv ([DashOp.changePage 2].foldl applyOp ⟨[], [], 1, [], []⟩) := by
  have h := c3_filter_page_invariants ⟨[], [], 1, [], []⟩ ("pay".toList) [] 2
    [DashOp.changePage 2] (List.nil_subset _)
  exact ⟨h.1, h.2.2.2.2.2.2⟩

/-- C4: the API wrapper checks transport success (status 200-299) before any
    parsing (the result does not depend on the parser for non-2xx responses),
    verifies a JSON content type before parsing, and every failure mode
    (network failure, non-2xx status, missing or non-JSON content type,
    parser failure) surfaces as an error value carrying a message, while a
    2xx JSON response with a parsable body is returned parsed. -/
theorem c4_safeFetch_errors (J : Type) (parse parse2 : Str → Except Str J)
    (r : HttpResponse) (m pm : Str) (v : J) (hbad : response_ok r = false) :
    safeFetch parse (.success r) = .error { message := httpErrorMessage r.status }
    ∧ safeFetch parse (.success r) = safeFetch parse2 (.success r)
    ∧ safeFetch parse (.netFail m) = .error { message := m }
    ∧ (∀ r2 : HttpResponse, response_ok r2 = true →
        (r2.contentType = none ∨ ∃ ct, r2.contentType = some ct
          ∧ includesStr ct ("application/json".toList) = false) →
        safeFetch parse (.success r2) = .error { message := "Response is not JSON".toList }
        ∧ safeFetch parse (.success r2) = safeFetch parse2 (.success r2))
    ∧ (∀ (r3 : HttpResponse) (ct3 : Str), response_ok r3 = true →
        r3.contentType = some ct3 →
        includesStr ct3 ("application/json".toList) = true →
        (parse r3.body = .error pm →
          safeFetch parse (.success r3) = .error { message := pm })
        ∧ (parse r3.body = .ok v → safeFetch parse (.success r3) = .ok v)) := by
  refine ⟨by simp [safeFetch, hbad], by simp [safeFetch, hbad], rfl, ?_, ?_⟩
  · rintro r2 hok (hct | ⟨ct, hct, hctf⟩)
    · exact ⟨by simp [safeFetch, hok, hct], by simp [safeFetch, hok, hct]⟩
    · have hone : ∀ pf : Str → Except Str J, safeFetch pf (.success r2)
          = .error { message := "Response is not JSON".toList } := by
        intro pf
        simp only [safeFetch, hok, hct, hctf, Bool.not_true, Bool.not_false,
          Bool.false_eq_true, if_false, if_true]
      exact ⟨hone parse, by rw [hone parse, hone parse2]⟩
  · intro r3 ct3 hok hct hcto
    constructor
    · intro hparse
      simp only [safeFetch, hok, hct, hcto, hparse, Bool.not_true, Bool.not_false,
        Bool.false_eq_true, if_false, if_true]
    · intro hparse
      simp only [safeFetch, hok, hct, hcto, hparse, Bool.not_true, Bool.not_false,
        Bool.false_eq_true, if_false, if_true]

/-- C4 witness: a 404 with a non-JSON body raises the HTTP-status error, no
    matter what the parser would have done. -/
theorem c4_safeFetch_errors_witness :
    safeFetch (fun _ => (Except.error ("unused".toList) : Except Str Unit))
        (.success ⟨404, some ("text/html".toList), "oops".toList⟩)
      = .error { message := httpErrorMessage 404 } :=
  (c4_safeFetch_errors Unit (fun _ => Except.error ("unused".toList))
    (fun _ => Except.error ("unused".toList))
    ⟨404, some ("text/html".toList), "oops".toList⟩ [] [] () (by decide)).1

/-- C5 (amended): an integer run followed by `.` and text up to the next
    line-break marker or end of string is wrapped as a step-item block that
    captures the integer and the remainder separately; however, the rule is
    NOT anchored to line starts: the same wrapping applies when the integer
    occurs after an arbitrary prose prefix, so an integer followed by `.`
    inside normal prose is wrapped too. -/
theorem c5_step_item_amended (pre d ws t : Str)
    (hpre : ∀ c ∈ pre, proseChar c = true ∧ c.isDigit = false)
    (hd : d ≠ []) (hdig : ∀ c ∈ d, c.isDigit = true)
    (hwsAll : ∀ c ∈ ws, isWsC c = true ∧ proseChar c = true)
    (ht : ∀ c ∈ t, proseChar c = true)
    (hbr : includesStr t brTok = false)
    (hws : t.dropWhile isWsC = t) :
    formatMessage (some (pre ++ d ++ '.' :: (ws ++ t))) = pre ++ stepRep d t := by
  have hallIn : ∀ c ∈ pre ++ d ++ '.' :: (ws ++ t), proseChar c = true := by
    intro c hc
    rcases mem_concat3 hc with h | h | h | h | h
    · exact (hpre c h).1
    · exact digit_prose c (hdig c h)
    · subst h
      decide
    · exact (hwsAll c h).2
    · exact ht c h
  have hne : (pre ++ d ++ '.' :: (ws ++ t)) ≠ [] := by
    intro h0
    rcases List.append_eq_nil.mp h0 with ⟨-, h2⟩
    simp at h2
  have hguard : (pre ++ d ++ '.' :: (ws ++ t)).isEmpty = false := by
    cases hcase : pre ++ d ++ '.' :: (ws ++ t) with
    | nil => exact absurd hcase hne
    | cons a b => rfl
  have h1 : gReplace boldRule (pre ++ d ++ '.' :: (ws ++ t))
      = pre ++ d ++ '.' :: (ws ++ t) :=
    gReplace_id_of _ _
      (fun c rest hc => boldRule_none c rest ((proseChar_spec c (hallIn c hc)).1))
  have h2 : brPass (pre ++ d ++ '.' :: (ws ++ t)) = pre ++ d ++ '.' :: (ws ++ t) :=
    brPass_id _ (fun c hc => (proseChar_spec c (hallIn c hc)).2.1)
  have h3 : gReplace sectionRule (pre ++ d ++ '.' :: (ws ++ t))
      = pre ++ d ++ '.' :: (ws ++ t) := by
    apply gReplace_id_of
    intro c rest hc
    obtain ⟨-, -, -, -, -, e1, e2, e3, e4, e5, e6⟩ := proseChar_spec c (hallIn c hc)
    exact sectionRule_none c rest e1 e2 e3 e4 e5 e6
  have hnl : ∀ c ∈ t, c ≠ '\n' ∧ c ≠ '\r' := fun c hc =>
    ⟨(proseChar_spec c (ht c hc)).2.1, (proseChar_spec c (ht c hc)).2.2.1⟩
  have h4 : gReplace stepRule (pre ++ d ++ '.' :: (ws ++ t)) = pre ++ stepRep d t :=
    runRule_step_walk d ws t hd hdig (fun c hc => (hwsAll c hc).1) hbr hnl hws pre _
      (le_refl _) (fun c hc => (hpre c hc).2)
  have hallOut : ∀ c ∈ pre ++ stepRep d t, proseChar c = true := by
    intro c hc
    rcases List.mem_append.mp hc with h | h
    · exact (hpre c h).1
    · exact stepRep_prose d t hdig ht c h
  have h5 : gReplace bulletRule (pre ++ stepRep d t) = pre ++ stepRep d t :=
    gReplace_id_of _ _
      (fun c rest hc => bulletRule_none c rest ((proseChar_spec c (hallOut c hc)).2.2.2.1))
  have h6 : gReplace tipsRule (pre ++ stepRep d t) = pre ++ stepRep d t :=
    gReplace_id_of _ _
      (fun c rest hc => tipsRule_none c rest ((proseChar_spec c (hallOut c hc)).1))
  have h7 : gReplace importantRule (pre ++ stepRep d t) = pre ++ stepRep d t :=
    gReplace_id_of _ _
      (fun c rest hc => importantRule_none c rest ((proseChar_spec c (hallOut c hc)).1))
  have h8 : runRuleOnce footerRule (pre ++ stepRep d t) = pre ++ stepRep d t :=
    onceReplace_id_of _ _
      (fun c rest hc => footerRule_none c rest ((proseChar_spec c (hallOut c hc)).2.2.2.2.1))
  simp only [formatMessage, hguard, Bool.false_eq_true, if_false, h1, h2, h3, h4,
    h5, h6, h7, h8]

/-- C5 witness: the amended rule applied inside prose, at a concrete input. -/
theorem c5_step_item_amended_witness :
    formatMessage (some ("The answer is 42. Trust me".toList)) =
      "The answer is ".toList ++ stepRep ("42".toList) ("Trust me".toList) := by
  have heq : "The answer is 42. Trust me".toList
      = "The answer is ".toList ++ "42".toList
          ++ '.' :: (" ".toList ++ "Trust me".toList) := by decide
  rw [heq]
  exact c5_step_item_amended "The answer is ".toList "42".toList " ".toList
    "Trust me".toList (by decide) (by decide) (by decide) (by decide) (by decide)
    (by decide) (by decide)

/-- C5 counterexample: an integer followed by `.` in the middle of ordinary
    prose IS wrapped as a step-item block, so the anchoring part of the claim
    is false on the code. -/
theorem c5_counterexample :
    formatMessage (some ("The answer is 42. Trust me".toList))
        ≠ "The answer is 42. Trust me".toList
    ∧ includesStr (formatMessage (some ("The answer is 42. Trust me".toList)))
        ("<div class=\"step-item\">".toList) = true
    ∧ formatMessage (some ("The answer is 42. Trust me".toList))
        = "The answer is <div class=\"step-item\"><strong>42.</strong> Trust me</div>".toList := by
  refine ⟨by decide, by decide, by decide⟩

/-- C6: the formatter is total on missing input: a missing message yields the
    empty string and the empty string is mapped to itself. -/
theorem c6_formatter_empty :
    formatMessage none = [] ∧ formatMessage (some []) = [] :=
  ⟨rfl, rfl⟩

/-- C7: the keyword editor trims whitespace, treats an input that is empty
    after trimming as a no-op, otherwise appends the trimmed keyword at the
    end (regardless of duplicates); removal deletes exactly the entry at the
    given position, so adding one keyword and removing index 0 yields the
    empty container. -/
theorem c7_keyword_editor (ks : List Str) (input : Str) (i : Nat) :
    ((jsTrim input).isEmpty = true → addKeyword ks input = ks)
    ∧ ((jsTrim input).isEmpty = false → addKeyword ks input = ks ++ [jsTrim input])
    ∧ removeKeyword ks i = ks.take i ++ ks.drop (i + 1)
    ∧ addKeyword ks ("  ".toList) = ks
    ∧ removeKeyword (addKeyword [] ("x".toList)) 0 = [] := by
  refine ⟨fun h => by simp [addKeyword, h], fun h => by simp [addKeyword, h],
    List.eraseIdx_eq_take_drop_succ ks i, ?_, by decide⟩
  have h : (jsTrim ("  ".toList)).isEmpty = true := by decide
  simp only [addKeyword, h]
  simp

/-- C7 witness: adding a non-blank keyword appends it. -/
theorem c7_keyword_editor_witness :
    addKeyword [] ("x".toList) = [] ++ [jsTrim ("x".toList)] :=
  (c7_keyword_editor [] ("x".toList) 0).2.1 (by decide)

/-- C8: while a chat request is outstanding (`loading = true`) a further send
    is a no-op (no message appended, no request issued); resolving the pending
    request (success or failure) clears `loading`, after which a send with
    non-blank input appends exactly one user message and issues one request. -/
theorem c8_pending_send_rejected (s : ChatState) (now now2 : Nat) (ans input : Str)
    (hload : s.loading = true) (hinput : (jsTrim input).isEmpty = false) :
    sendMessageBegin s now = s
    ∧ (sendMessageResolveOk s now ans).loading = false
    ∧ (sendMessageResolveErr s now).loading = false
    ∧ (sendMessageBegin { sendMessageResolveOk s now ans with userInput := input }
        now2).messages
      = s.messages
          ++ [{ id := now, type := "ai".toList, sender := "AI Assistant".toList,
                content := ans }]
          ++ [{ id := now2, type := "user".toList, sender := "You".toList,
                content := jsTrim input }]
    ∧ (sendMessageBegin { sendMessageResolveOk s now ans with userInput := input }
        now2).requestsSent = s.requestsSent + 1 := by
  refine ⟨by simp [sendMessageBegin, hload], rfl, rfl, ?_, ?_⟩
  · simp only [sendMessageBegin, sendMessageResolveOk, hinput, Bool.false_or,
      Bool.false_eq_true, if_false]
  · simp only [sendMessageBegin, sendMessageResolveOk, hinput, Bool.false_or,
      Bool.false_eq_true, if_false]

/-- C8 witness: a send against a loading state is rejected at a concrete state. -/
theorem c8_pending_send_rejected_witness :
    sendMessageBegin ⟨"next".toList, true, [], "general".toList, true, 1⟩ 7
      = ⟨"next".toList, true, [], "general".toList, true, 1⟩ :=
  (c8_pending_send_rejected ⟨"next".toList, true, [], "general".toList, true, 1⟩
    7 8 ("fine".toList) ("hi".toList) rfl (by decide)).1

/-- C9: when the input is empty or whitespace only, `sendMessage` is a no-op:
    the state, and in particular the message sequence, the request count, the
    input field, and the loading flag, are unchanged. -/
theorem c9_blank_input_noop (s : ChatState) (now : Nat)
    (h : (jsTrim s.userInput).isEmpty = true) :
    sendMessageBegin s now = s
    ∧ (sendMessageBegin s now).messages = s.messages
    ∧ (sendMessageBegin s now).requestsSent = s.requestsSent
    ∧ (sendMessageBegin s now).userInput = s.userInput
    ∧ (sendMessageBegin s now).loading = s.loading := by
  have he : sendMessageBegin s now = s := by simp [sendMessageBegin, h]
  exact ⟨he, by rw [he], by rw [he], by rw [he], by rw [he]⟩

/-- C9 witness: a whitespace-only input is rejected at a concrete state. -/
theorem c9_blank_input_noop_witness :
    sendMessageBegin ⟨"  ".toList, false, [], "general".toList, true, 0⟩ 3
      = ⟨"  ".toList, false, [], "general".toList, true, 0⟩ :=
  (c9_blank_input_noop ⟨"  ".toList, false, [], "general".toList, true, 0⟩ 3
    (by decide)).1

/-- C10: the computed property `canTrainModel` holds exactly when the sum of
    the knowledge-item count and the training-record count is at least 5; it
    is the predicate under which the UI offers model training. -/
theorem c10_canTrainModel_iff (s : StatsState) :
    canTrainModel s = true ↔ 5 ≤ s.knowledgeCount + s.trainingCount := by
  simp [canTrainModel]
